import Mathlib

/-!
Shallow embedding of the core of `d-foundation/juno` (files
`src/node/remote/node.go` and `src/types/dchain.go`) and proofs about it.

Modelling conventions:
* Go `[]byte` is `List Nat` with every element `< 256` by construction.
* Go `string` is modelled as its byte sequence (`List Nat`) where the code
  treats it byte-wise (splitting, base64, hashing); inputs in this
  development are ASCII, so `Char.toNat` is the byte of a character.
* A Go function returning `(T, error)` is `Except GoErr T`; a Go runtime
  panic (out-of-range index, failed type assertion, nil dereference) is the
  distinguished error `GoErr.crash`, which no `if err != nil` check in the
  source can intercept.
* Unbounded loops / recursion in the source take an explicit fuel argument
  and return `Option` (`none` = fuel exhausted); theorems supply enough fuel.
* Go `int` / `int64` fields coming from RPC responses are `Int`; conversions
  `uint64(x)` are `(x % 2^64).toNat`.
-/

/-- Outcome of a fallible Go computation: `fail` is an `error` return value,
`crash` is a runtime panic (index out of range, nil dereference, failed type
assertion). -/
inductive GoErr where
  | fail (msg : String)
  | crash (msg : String)
  deriving DecidableEq, Repr

/-- Bytes of an ASCII string (Go strings are byte sequences). -/
def strBytes (s : String) : List Nat :=
  s.toList.map Char.toNat

/-- One uppercase hexadecimal digit. -/
def hexDigitUpper (n : Nat) : Char :=
  if n < 10 then Char.ofNat (48 + n) else Char.ofNat (55 + n)

/-- Go `fmt.Sprintf("%X", b)` on a byte slice: continuous uppercase hex. -/
def hexUpper (bs : List Nat) : String :=
  String.mk (bs.foldr (fun b acc => hexDigitUpper (b / 16) :: hexDigitUpper (b % 16) :: acc) [])

/-- Value of one hex digit character (Go `encoding/hex` accepts both cases). -/
def hexDigitVal (c : Nat) : Option Nat :=
  if 48 ≤ c ∧ c ≤ 57 then some (c - 48)
  else if 65 ≤ c ∧ c ≤ 70 then some (c - 55)
  else if 97 ≤ c ∧ c ≤ 102 then some (c - 87)
  else none

/-- Go `hex.DecodeString`: pairs of hex digits to bytes; fails on an odd
length or a non-hex character. -/
def hexDecode : List Nat → Option (List Nat)
  | [] => some []
  | [_] => none
  | c1 :: c2 :: rest => do
      let h ← hexDigitVal c1
      let l ← hexDigitVal c2
      let tail ← hexDecode rest
      pure ((h * 16 + l) :: tail)

/-! ### Base64 (Go `encoding/base64`)

`StdEncoding` uses `+ /` and requires `=` padding; `RawURLEncoding` uses
`- _` and forbids padding. Only decoding appears in the source. -/

/-- Value of one standard-alphabet base64 character. -/
def b64StdVal (c : Nat) : Option Nat :=
  if 65 ≤ c ∧ c ≤ 90 then some (c - 65)          -- A-Z
  else if 97 ≤ c ∧ c ≤ 122 then some (c - 71)    -- a-z
  else if 48 ≤ c ∧ c ≤ 57 then some (c + 4)      -- 0-9
  else if c = 43 then some 62                     -- +
  else if c = 47 then some 63                     -- /
  else none

/-- Value of one URL-safe-alphabet base64 character. -/
def b64UrlVal (c : Nat) : Option Nat :=
  if 65 ≤ c ∧ c ≤ 90 then some (c - 65)          -- A-Z
  else if 97 ≤ c ∧ c ≤ 122 then some (c - 71)    -- a-z
  else if 48 ≤ c ∧ c ≤ 57 then some (c + 4)      -- 0-9
  else if c = 45 then some 62                     -- -
  else if c = 95 then some 63                     -- _
  else none

/-- Decode base64 quanta given a per-character value function. A final
quantum of 2 or 3 characters yields 1 or 2 bytes; a final quantum of a
single character is invalid. -/
def b64DecodeCore (val : Nat → Option Nat) : List Nat → Option (List Nat)
  | [] => some []
  | [_] => none
  | [c1, c2] => do
      let v1 ← val c1
      let v2 ← val c2
      pure [v1 * 4 + v2 / 16]
  | [c1, c2, c3] => do
      let v1 ← val c1
      let v2 ← val c2
      let v3 ← val c3
      pure [v1 * 4 + v2 / 16, (v2 % 16) * 16 + v3 / 4]
  | c1 :: c2 :: c3 :: c4 :: rest => do
      let v1 ← val c1
      let v2 ← val c2
      let v3 ← val c3
      let v4 ← val c4
      let tail ← b64DecodeCore val rest
      pure ((v1 * 4 + v2 / 16) :: ((v2 % 16) * 16 + v3 / 4) :: ((v3 % 4) * 64 + v4) :: tail)

/-- Go `base64.RawURLEncoding.DecodeString` on the bytes of a string:
URL-safe alphabet, no padding accepted. -/
def b64RawURLDecode (s : List Nat) : Option (List Nat) :=
  if s.any (fun c => c = 61) then none else b64DecodeCore b64UrlVal s

/-- Strip the `=` padding of a standard base64 final quantum, rejecting
misplaced padding (a simplified but faithful-on-valid-input model of Go
`base64.StdEncoding`: 4-character quanta, the last one padded with one or
two `=`). -/
def b64StdDecode (s : List Nat) : Option (List Nat) :=
  if s.length % 4 ≠ 0 then none
  else
    let body := s.takeWhile (fun c => c ≠ 61)
    let pad := s.drop body.length
    if pad.all (fun c => c = 61) ∧ pad.length ≤ 2 then b64DecodeCore b64StdVal body
    else none

/-! ### Chunked genesis reconstruction (`getGenesisChunksStartingFrom`)

The external call `cp.client.GenesisChunked(ctx, id)` (CometBFT HTTP client)
returns `(*ResultGenesisChunk, error)` and, on error, the result pointer is
`nil`. A fetcher is therefore `Nat → Option ChunkResult`, `none` meaning
"`err != nil` and `res == nil`". -/

/-- CometBFT `ResultGenesisChunk`: `TotalChunks int`, `Data` a base64 string
(modelled as its bytes). -/
structure ChunkResult where
  totalChunks : Int
  data : List Nat
  deriving Repr, DecidableEq

/-- `src/node/remote/node.go` `getGenesisChunksStartingFrom`. Recursion is
fuelled; `none` means the fuel ran out (the Go recursion would still be
running). On a fetch error the source evaluates `res.TotalChunks` with
`res == nil` while formatting its error message — a nil-pointer
dereference, modelled as `GoErr.crash`. The guard `id == uint(res.TotalChunks-1)`
casts through Go `uint`, hence the `% 2^64`. -/
def getGenesisChunksStartingFrom (fetch : Nat → Option ChunkResult) :
    Nat → Nat → Option (Except GoErr (List Nat))
  | 0, _ => none
  | fuel + 1, id =>
    match fetch id with
    | none => some (.error (.crash "runtime error: invalid memory address or nil pointer dereference"))
    | some res =>
      match b64StdDecode res.data with
      | none => some (.error (.fail ("error while decoding genesis chunk " ++ toString id ++ " out of " ++ toString res.totalChunks)))
      | some bz =>
        if id = ((res.totalChunks - 1) % (2 ^ 64 : Int)).toNat then
          some (.ok bz)
        else
          match getGenesisChunksStartingFrom fetch fuel (id + 1) with
          | none => none
          | some (.error e) => some (.error e)
          | some (.ok next) => some (.ok (bz ++ next))

/-- Assembling from any start index `id < N` under a fetcher that
consistently reports `N` total chunks yields the concatenation of the
decoded payloads for indices `id .. N-1`, given fuel at least `N - id`. -/
theorem getGenesisChunks_from (fetch : Nat → Option ChunkResult) (N : Nat)
    (data payload : Nat → List Nat) (hN64 : N < 2 ^ 64)
    (hfetch : ∀ i, i < N → fetch i = some ⟨(N : Int), data i⟩)
    (hdec : ∀ i, i < N → b64StdDecode (data i) = some (payload i)) :
    ∀ fuel id, id < N → N - id ≤ fuel →
      getGenesisChunksStartingFrom fetch fuel id =
        some (.ok (((List.range (N - id)).map (fun j => payload (id + j))).flatten)) := by
  intro fuel
  induction fuel with
  | zero => intro id hid hfuel; omega
  | succ fuel ih =>
    intro id hid hfuel
    have hN2 : N < 18446744073709551616 := by
      have h3 : (2 ^ 64 : Nat) = 18446744073709551616 := by norm_num
      rw [h3] at hN64
      exact hN64
    have hguard : (((N : Int) - 1) % (2 ^ 64 : Int)).toNat = N - 1 := by
      have h2 : (2 ^ 64 : Int) = 18446744073709551616 := by norm_num
      rw [h2]
      omega
    simp only [getGenesisChunksStartingFrom, hfetch id hid, hdec id hid, hguard]
    by_cases hlast : id = N - 1
    · have hsub : N - id = 1 := by omega
      rw [if_pos hlast, hsub]
      rw [show List.range 1 = [0] from rfl]
      simp
    · have hlt : id + 1 < N := by omega
      have hne : ¬ id = N - 1 := hlast
      rw [if_neg hne, ih (id + 1) hlt (by omega)]
      have hsub : N - id = (N - (id + 1)) + 1 := by omega
      rw [hsub, List.range_succ_eq_map]
      simp only [List.map_cons, List.map_map, List.flatten_cons, Nat.add_zero]
      have harg : ((fun j => payload (id + j)) ∘ Nat.succ) = fun j => payload (id + 1 + j) := by
        funext j
        simp [Function.comp]
        congr 1
        omega
      rw [harg]

/-- C1: for every sequence of `N` chunks (`N ≥ 1`, with `N` in the range of
Go's 64-bit `int`) in which each fetched chunk reports `totalChunks = N` and
every payload base64-decodes successfully, `getGenesisChunksStartingFrom 0`
returns exactly the concatenation of the chunks' decoded payloads in
ascending index order. -/
theorem chunk_reassembly_correct (fetch : Nat → Option ChunkResult) (N : Nat)
    (data payload : Nat → List Nat) (fuel : Nat)
    (hN : 1 ≤ N) (hN64 : N < 2 ^ 64)
    (hfetch : ∀ i, i < N → fetch i = some ⟨(N : Int), data i⟩)
    (hdec : ∀ i, i < N → b64StdDecode (data i) = some (payload i))
    (hfuel : N ≤ fuel) :
    getGenesisChunksStartingFrom fetch fuel 0 =
      some (.ok (((List.range N).map payload).flatten)) := by
  have h := getGenesisChunks_from fetch N data payload hN64 hfetch hdec fuel 0
    (by omega) (by omega)
  simpa using h

/-- Concrete two-chunk fetcher: chunk 0 carries base64 "foo", chunk 1
carries base64 "bar"; both report 2 total chunks. -/
def chunkFetchEx : Nat → Option ChunkResult :=
  fun i => if i = 0 then some ⟨2, strBytes "Zm9v"⟩ else some ⟨2, strBytes "YmFy"⟩

/-- The raw base64 data of the two example chunks. -/
def chunkDataEx : Nat → List Nat :=
  fun i => if i = 0 then strBytes "Zm9v" else strBytes "YmFy"

/-- The decoded payloads of the two example chunks. -/
def chunkPayloadEx : Nat → List Nat :=
  fun i => if i = 0 then strBytes "foo" else strBytes "bar"

/-- Witness for C1 at a concrete two-chunk sequence. -/
theorem chunk_reassembly_correct_witness :
    (1 ≤ 2 ∧ 2 < 2 ^ 64 ∧
      (∀ i, i < 2 → chunkFetchEx i = some ⟨(2 : Int), chunkDataEx i⟩) ∧
      (∀ i, i < 2 → b64StdDecode (chunkDataEx i) = some (chunkPayloadEx i)) ∧
      2 ≤ 2) ∧
    getGenesisChunksStartingFrom chunkFetchEx 2 0 =
      some (.ok (((List.range 2).map chunkPayloadEx).flatten)) :=
  ⟨⟨by decide, by decide, by decide, by decide, by decide⟩,
   chunk_reassembly_correct chunkFetchEx 2 chunkDataEx chunkPayloadEx 2
     (by decide) (by decide) (by decide) (by decide) (by decide)⟩

/-- C7: when fetching a genesis chunk fails, the source does not return the
annotated fetch error it formats — it dereferences the `nil` result pointer
(`res.TotalChunks` with `res == nil`, the CometBFT client returns `nil` on
error) and panics. Evaluated at a fetcher whose very first fetch fails. -/
theorem chunk_fetch_failure_crashes :
    getGenesisChunksStartingFrom (fun _ => none) 1 0 =
      some (.error (.crash "runtime error: invalid memory address or nil pointer dereference")) := rfl

/-! ### Paginated validator collection (`Validators`)

The external call `cp.client.Validators(ctx, &height, &page, &perPage)`
returns a page of validators with its `Count` and the grand `Total`;
`none` models a failed call. -/

/-- One page of the validators RPC response (`Count`, `Total` are Go `int`). -/
structure PageResult (V : Type) where
  validators : List V
  count : Int
  total : Int

/-- The `for !stop` loop of `Validators` in `src/node/remote/node.go`:
appends the page's validators, adds its `Count`, adopts its `Total`,
increments the page and stops once the accumulated count equals the
latest total. The returned `Nat` is the number of page requests issued. -/
def collectValidatorsLoop {V : Type} (fetch : Nat → Option (PageResult V)) :
    Nat → Nat → List V → Int → Option (Except GoErr (Nat × List V))
  | 0, _, _, _ => none
  | fuel + 1, page, acc, count =>
    match fetch page with
    | none => some (.error (.fail "error while getting validators"))
    | some r =>
      if count + r.count = r.total then some (.ok (page, acc ++ r.validators))
      else collectValidatorsLoop fetch fuel (page + 1) (acc ++ r.validators) (count + r.count)

/-- `Validators` of the source: the loop started at page 1 with an empty
accumulator and zero count. -/
def ValidatorsGo {V : Type} (fetch : Nat → Option (PageResult V)) (fuel : Nat) :
    Option (Except GoErr (Nat × List V)) :=
  collectValidatorsLoop fetch fuel 1 [] 0

/-- A server holding the validator list `vals` and answering page `p`
(1-based, page size 100) consistently: the 100-element slice starting at
`100*(p-1)`, its length as `Count`, and `vals.length` as `Total`. -/
def pagedFetch {V : Type} (vals : List V) (page : Nat) : Option (PageResult V) :=
  some ⟨(vals.drop (100 * (page - 1))).take 100,
        (((vals.drop (100 * (page - 1))).take 100).length : Int),
        (vals.length : Int)⟩

/-- Loop invariant for `collectValidatorsLoop` over a consistent paged
server: entering page `p` with the first `100*(p-1)` validators already
accumulated finishes with all of them after `ceil((T - 100*(p-1))/100)`
more requests. -/
theorem collectLoop_inv {V : Type} (vals : List V) :
    ∀ fuel p, 1 ≤ p → 100 * (p - 1) < vals.length →
      (vals.length - 100 * (p - 1) + 99) / 100 ≤ fuel →
      collectValidatorsLoop (pagedFetch vals) fuel p (vals.take (100 * (p - 1)))
          ((100 * (p - 1) : Nat) : Int) =
        some (.ok ((vals.length + 99) / 100, vals)) := by
  intro fuel
  induction fuel with
  | zero => intro p hp hlt hfuel; omega
  | succ fuel ih =>
    intro p hp hlt hfuel
    simp only [collectValidatorsLoop, pagedFetch]
    have hlen : ((vals.drop (100 * (p - 1))).take 100).length =
        min 100 (vals.length - 100 * (p - 1)) := by
      simp [List.length_take, List.length_drop]
    by_cases hstop : vals.length ≤ 100 * p
    · have hcond : ((100 * (p - 1) : Nat) : Int) +
          ((((vals.drop (100 * (p - 1))).take 100).length : Nat) : Int) =
          ((vals.length : Nat) : Int) := by
        rw [hlen]
        push_cast
        omega
      rw [if_pos hcond]
      have h1 : (vals.drop (100 * (p - 1))).take 100 = vals.drop (100 * (p - 1)) := by
        apply List.take_of_length_le
        simp [List.length_drop]
        omega
      rw [h1, List.take_append_drop]
      have hpage : p = (vals.length + 99) / 100 := by omega
      rw [hpage]
    · have hcond : ¬ (((100 * (p - 1) : Nat) : Int) +
          ((((vals.drop (100 * (p - 1))).take 100).length : Nat) : Int) =
          ((vals.length : Nat) : Int)) := by
        rw [hlen]
        push_cast
        omega
      rw [if_neg hcond]
      have e1 : vals.take (100 * (p - 1)) ++ (vals.drop (100 * (p - 1))).take 100 =
          vals.take (100 * (p + 1 - 1)) := by
        rw [← List.take_add]
        congr 1
        omega
      have e2 : ((100 * (p - 1) : Nat) : Int) +
          ((((vals.drop (100 * (p - 1))).take 100).length : Nat) : Int) =
          ((100 * (p + 1 - 1) : Nat) : Int) := by
        rw [hlen]
        push_cast
        omega
      rw [e1, e2]
      exact ih (p + 1) (by omega) (by omega) (by omega)

/-- C3 (amended): for a consistent paged server over a validator list of
length `T ≥ 1`, `Validators` issues exactly `ceil(T/100)` page requests and
returns exactly the `T` validators (the underlying list itself, so in order
and duplicate-free whenever the set is). For `T = 0` the loop still issues
one request, so the `T ≥ 1` hypothesis is necessary (see the
counterexample). -/
theorem pagination_termination {V : Type} (vals : List V) (fuel : Nat)
    (hT : 1 ≤ vals.length) (hfuel : (vals.length + 99) / 100 ≤ fuel) :
    ValidatorsGo (pagedFetch vals) fuel =
      some (.ok ((vals.length + 99) / 100, vals)) := by
  have h := collectLoop_inv vals fuel 1 (by omega) (by omega) (by omega)
  simpa [ValidatorsGo] using h

/-- Witness for C3 (amended) at the spec's three-page scenario:
`T = 250` needs exactly `ceil(250/100) = 3` requests. -/
theorem pagination_termination_witness :
    (1 ≤ (List.range 250).length ∧ ((List.range 250).length + 99) / 100 ≤ 3) ∧
    ValidatorsGo (pagedFetch (List.range 250)) 3 =
      some (.ok (((List.range 250).length + 99) / 100, List.range 250)) :=
  ⟨⟨by norm_num [List.length_range], by norm_num [List.length_range]⟩,
   pagination_termination (List.range 250) 3 (by norm_num [List.length_range])
     (by norm_num [List.length_range])⟩

/-- C3 counterexample: at `grandTotal = 0` with a consistent server the
loop still issues one page request, while `ceil(0/100) = 0`; so "exactly
`ceil(T/100)` requests for every `T`" fails at `T = 0`. -/
theorem pagination_zero_total_counterexample :
    ValidatorsGo (pagedFetch ([] : List Nat)) 1 = some (.ok (1, [])) ∧
    (([] : List Nat).length + 99) / 100 = 0 ∧ (1 : Nat) ≠ 0 :=
  ⟨rfl, by decide, by decide⟩

/-! ### SHA-256 (Go `crypto/sha256`, FIPS 180-4)

Embedded executably over byte lists; 32-bit words are `Nat` reduced with
`% 2^32`. -/

/-- Truncate to a 32-bit word. -/
def w32 (n : Nat) : Nat := n % 4294967296

/-- Right-rotation of a 32-bit word. -/
def rotr32 (n s : Nat) : Nat := w32 ((n >>> s) ||| (n <<< (32 - s)))

/-- The 64 SHA-256 round constants. -/
def sha256K : List Nat :=
  [1116352408, 1899447441, 3049323471, 3921009573,
   961987163, 1508970993, 2453635748, 2870763221,
   3624381080, 310598401, 607225278, 1426881987,
   1925078388, 2162078206, 2614888103, 3248222580,
   3835390401, 4022224774, 264347078, 604807628,
   770255983, 1249150122, 1555081692, 1996064986,
   2554220882, 2821834349, 2952996808, 3210313671,
   3336571891, 3584528711, 113926993, 338241895,
   666307205, 773529912, 1294757372, 1396182291,
   1695183700, 1986661051, 2177026350, 2456956037,
   2730485921, 2820302411, 3259730800, 3345764771,
   3516065817, 3600352804, 4094571909, 275423344,
   430227734, 506948616, 659060556, 883997877,
   958139571, 1322822218, 1537002063, 1747873779,
   1955562222, 2024104815, 2227730452, 2361852424,
   2428436474, 2756734187, 3204031479, 3329325298]

/-- The SHA-256 initial hash state. -/
def sha256Init : List Nat :=
  [1779033703, 3144134277, 1013904242, 2773480762,
   1359893119, 2600822924, 528734635, 1541459225]

/-- Big-endian 32-bit words of a byte list (length a multiple of 4). -/
def bytesToWordsBE : List Nat → List Nat
  | b1 :: b2 :: b3 :: b4 :: rest =>
      (((b1 * 256 + b2) * 256 + b3) * 256 + b4) :: bytesToWordsBE rest
  | _ => []

/-- Big-endian bytes of a list of 32-bit words. -/
def wordsToBytesBE (ws : List Nat) : List Nat :=
  ws.flatMap (fun w => [w / 16777216 % 256, w / 65536 % 256, w / 256 % 256, w % 256])

/-- Extend a 16-word message schedule by `n` further words. -/
def extendSchedule : Nat → List Nat → List Nat
  | 0, ws => ws
  | n + 1, ws =>
      let i := ws.length
      let w15 := ws.getD (i - 15) 0
      let w2 := ws.getD (i - 2) 0
      let w16 := ws.getD (i - 16) 0
      let w7 := ws.getD (i - 7) 0
      let s0 := (rotr32 w15 7) ^^^ (rotr32 w15 18) ^^^ (w15 >>> 3)
      let s1 := (rotr32 w2 17) ^^^ (rotr32 w2 19) ^^^ (w2 >>> 10)
      extendSchedule n (ws ++ [w32 (w16 + s0 + w7 + s1)])

/-- One SHA-256 compression round; the state is the 8-word working vector,
`wk` the (schedule word, round constant) pair. -/
def shaRound (st : List Nat) (wk : Nat × Nat) : List Nat :=
  match st with
  | [a, b, c, d, e, f, g, h] =>
    let S1 := (rotr32 e 6) ^^^ (rotr32 e 11) ^^^ (rotr32 e 25)
    let ch := (e &&& f) ^^^ ((e ^^^ 4294967295) &&& g)
    let t1 := w32 (h + S1 + ch + wk.2 + wk.1)
    let S0 := (rotr32 a 2) ^^^ (rotr32 a 13) ^^^ (rotr32 a 22)
    let mj := (a &&& b) ^^^ (a &&& c) ^^^ (b &&& c)
    let t2 := w32 (S0 + mj)
    [w32 (t1 + t2), a, b, c, w32 (d + t1), e, f, g]
  | _ => st

/-- Compress one 64-byte block into the hash state. -/
def processBlock (h : List Nat) (block : List Nat) : List Nat :=
  let ws := extendSchedule 48 (bytesToWordsBE block)
  let st := (ws.zip sha256K).foldl shaRound h
  (h.zip st).map (fun p => w32 (p.1 + p.2))

/-- Big-endian 8-byte encoding (for the padded bit length). -/
def be64 (n : Nat) : List Nat :=
  [n / 72057594037927936 % 256, n / 281474976710656 % 256, n / 1099511627776 % 256,
   n / 4294967296 % 256, n / 16777216 % 256, n / 65536 % 256, n / 256 % 256, n % 256]

/-- SHA-256 padding: `0x80`, zeros to 56 mod 64, then the bit length. -/
def sha256Pad (msg : List Nat) : List Nat :=
  let L := msg.length
  let k := (119 - (L % 64)) % 64
  msg ++ 128 :: List.replicate k 0 ++ be64 (8 * L)

/-- Process `n` 64-byte blocks. -/
def sha256Blocks : Nat → List Nat → List Nat → List Nat
  | 0, st, _ => st
  | n + 1, st, bytes => sha256Blocks n (processBlock st (bytes.take 64)) (bytes.drop 64)

/-- SHA-256 of a byte list (Go `sha256.Sum256`). -/
def sha256 (msg : List Nat) : List Nat :=
  let padded := sha256Pad msg
  wordsToBytesBE (sha256Blocks (padded.length / 64) sha256Init padded)

/-! ### JSON (Go `encoding/json`)

`json.Unmarshal` into `interface{}` and `json.Marshal` of
`map[string]interface{}`, as used by `HandleVPTxs`. JSON strings are kept
as their byte sequences; numbers keep their literal token bytes (no claim
depends on numeric semantics, so Go's float64 round-trip is not modelled).
Objects are kept sorted by key (byte-lexicographic, Go's `string <`), the
order `json.Marshal` serializes map keys in; this is observationally
equivalent to Go's unordered map. -/

/-- A JSON value as decoded by Go into `interface{}`. -/
inductive Json where
  | null
  | bool (b : Bool)
  | num (raw : List Nat)
  | str (s : List Nat)
  | arr (xs : List Json)
  | obj (kvs : List (List Nat × Json))

/-- A Go `map[string]interface{}` (canonically key-sorted assoc list). -/
abbrev JsonMap := List (List Nat × Json)

/-- Strict byte-lexicographic order (Go `string <`). -/
def bytesLt : List Nat → List Nat → Bool
  | [], [] => false
  | [], _ :: _ => true
  | _ :: _, [] => false
  | a :: as, b :: bs => if a < b then true else if b < a then false else bytesLt as bs

/-- Go map assignment `m[k] = v`: replace the value if `k` is present,
otherwise insert (kept at the key-sorted position). -/
def mapInsert (k : List Nat) (v : Json) : JsonMap → JsonMap
  | [] => [(k, v)]
  | (k', v') :: rest =>
    if k = k' then (k, v) :: rest
    else if bytesLt k k' then (k, v) :: (k', v') :: rest
    else (k', v') :: mapInsert k v rest

/-- Go map read `m[k]`. -/
def mapLookup (k : List Nat) : JsonMap → Option Json
  | [] => none
  | (k', v) :: rest => if k = k' then some v else mapLookup k rest

/-- JSON insignificant whitespace. -/
def isWsByte (c : Nat) : Bool := c == 32 || c == 9 || c == 10 || c == 13

/-- Skip insignificant whitespace. -/
def skipWs (s : List Nat) : List Nat := s.dropWhile isWsByte

/-- UTF-8 bytes of a code point (for `\uXXXX`; surrogate pairing of Go's
decoder is not modelled — no input here uses it). -/
def utf8Encode (n : Nat) : List Nat :=
  if n < 128 then [n]
  else if n < 2048 then [192 + n / 64, 128 + n % 64]
  else if n < 65536 then [224 + n / 4096, 128 + n / 64 % 64, 128 + n % 64]
  else [240 + n / 262144, 128 + n / 4096 % 64, 128 + n / 64 % 64, 128 + n % 64]

/-- Four hex digits of a `\uXXXX` escape. -/
def parseHex4 : List Nat → Option (Nat × List Nat)
  | a :: b :: c :: d :: rest => do
      let va ← hexDigitVal a
      let vb ← hexDigitVal b
      let vc ← hexDigitVal c
      let vd ← hexDigitVal d
      pure (((va * 16 + vb) * 16 + vc) * 16 + vd, rest)
  | _ => none

/-- The single-character JSON string escapes. -/
def escByte (e : Nat) : Option Nat :=
  if e == 34 then some 34
  else if e == 92 then some 92
  else if e == 47 then some 47
  else if e == 98 then some 8
  else if e == 102 then some 12
  else if e == 110 then some 10
  else if e == 114 then some 13
  else if e == 116 then some 9
  else none

/-- Body of a JSON string after the opening quote: contents and remainder.
Raw control bytes below 0x20 are rejected, as in Go. -/
def parseStringBody : Nat → List Nat → Option (List Nat × List Nat)
  | 0, _ => none
  | _ + 1, [] => none
  | fuel + 1, c :: rest =>
    if c == 34 then some ([], rest)
    else if c == 92 then
      match rest with
      | [] => none
      | e :: rest2 =>
        if e == 117 then
          match parseHex4 rest2 with
          | none => none
          | some (n, rest3) =>
            match parseStringBody fuel rest3 with
            | none => none
            | some (cs, r) => some (utf8Encode n ++ cs, r)
        else
          match escByte e with
          | none => none
          | some b =>
            match parseStringBody fuel rest2 with
            | none => none
            | some (cs, r) => some (b :: cs, r)
    else if c < 32 then none
    else
      match parseStringBody fuel rest with
      | none => none
      | some (cs, r) => some (c :: cs, r)

/-- Bytes that may appear in a JSON number token. -/
def isNumByte (c : Nat) : Bool :=
  (48 ≤ c && c ≤ 57) || c == 45 || c == 43 || c == 46 || c == 101 || c == 69

/-- A JSON number token kept as its literal bytes (must contain a digit;
Go validates the grammar more strictly, which no claim depends on). -/
def parseNumber (s : List Nat) : Option (List Nat × List Nat) :=
  let tok := s.takeWhile isNumByte
  if tok.any (fun c => 48 ≤ c && c ≤ 57) then some (tok, s.drop tok.length) else none

mutual

/-- One JSON value and the remainder of the input. -/
def parseValue : Nat → List Nat → Option (Json × List Nat)
  | 0, _ => none
  | fuel + 1, s =>
    match skipWs s with
    | [] => none
    | c :: rest =>
      if c == 110 then
        match rest with
        | 117 :: 108 :: 108 :: r => some (.null, r)
        | _ => none
      else if c == 116 then
        match rest with
        | 114 :: 117 :: 101 :: r => some (.bool true, r)
        | _ => none
      else if c == 102 then
        match rest with
        | 97 :: 108 :: 115 :: 101 :: r => some (.bool false, r)
        | _ => none
      else if c == 34 then
        match parseStringBody (rest.length + 1) rest with
        | none => none
        | some (cs, r) => some (.str cs, r)
      else if c == 91 then
        match skipWs rest with
        | 93 :: r => some (.arr [], r)
        | s' =>
          match parseArrayRest fuel s' with
          | none => none
          | some (xs, r) => some (.arr xs, r)
      else if c == 123 then
        match skipWs rest with
        | 125 :: r => some (.obj [], r)
        | s' =>
          match parseObjRest fuel s' with
          | none => none
          | some (entries, r) =>
              some (.obj (entries.foldl (fun m p => mapInsert p.1 p.2 m) []), r)
      else
        match parseNumber (c :: rest) with
        | none => none
        | some (tok, r) => some (.num tok, r)

/-- Comma-separated values of a nonempty array, up to the closing `]`. -/
def parseArrayRest : Nat → List Nat → Option (List Json × List Nat)
  | 0, _ => none
  | fuel + 1, s =>
    match parseValue fuel s with
    | none => none
    | some (v, r) =>
      match skipWs r with
      | 44 :: r2 =>
        match parseArrayRest fuel r2 with
        | none => none
        | some (vs, r3) => some (v :: vs, r3)
      | 93 :: r2 => some ([v], r2)
      | _ => none

/-- Members of a nonempty object in textual order (duplicates kept), up to
the closing brace. -/
def parseObjRest : Nat → List Nat → Option (List (List Nat × Json) × List Nat)
  | 0, _ => none
  | fuel + 1, s =>
    match skipWs s with
    | 34 :: r =>
      match parseStringBody (r.length + 1) r with
      | none => none
      | some (k, r2) =>
        match skipWs r2 with
        | 58 :: r3 =>
          match parseValue fuel r3 with
          | none => none
          | some (v, r4) =>
            match skipWs r4 with
            | 44 :: r5 =>
              match parseObjRest fuel r5 with
              | none => none
              | some (es, r6) => some ((k, v) :: es, r6)
            | 125 :: r5 => some ([(k, v)], r5)
            | _ => none
        | _ => none
    | _ => none

end

/-- Go `json.Unmarshal` of a whole byte slice into `interface{}`:
one value plus trailing whitespace only. -/
def jsonParse (bytes : List Nat) : Option Json :=
  match parseValue (2 * bytes.length + 2) bytes with
  | some (v, r) => if skipWs r = [] then some v else none
  | none => none

/-- Lowercase hex digit (Go's `\u00xx` escapes are lowercase). -/
def hexDigitLowerByte (n : Nat) : Nat :=
  if n < 10 then 48 + n else 87 + n

/-- Go `encoding/json` string escaping, HTML escaping on (the default for
`json.Marshal`): `"` `\` and control bytes, plus `&` `<` `>` as `\u00xx`. -/
def escapeJsonByte (c : Nat) : List Nat :=
  if c == 34 then [92, 34]
  else if c == 92 then [92, 92]
  else if c == 10 then [92, 110]
  else if c == 13 then [92, 114]
  else if c == 9 then [92, 116]
  else if c < 32 then [92, 117, 48, 48, hexDigitLowerByte (c / 16), hexDigitLowerByte (c % 16)]
  else if c == 38 || c == 60 || c == 62 then
    [92, 117, 48, 48, hexDigitLowerByte (c / 16), hexDigitLowerByte (c % 16)]
  else [c]

/-- Intercalate a separator byte. -/
def joinBytes (sep : Nat) : List (List Nat) → List Nat
  | [] => []
  | [x] => x
  | x :: xs => x ++ sep :: joinBytes sep xs

/-- `json.Marshal`, fuelled on nesting (`sizeOf` always suffices). Object
members are emitted in the stored order, which is key-sorted — exactly the
order Go serializes map keys in. -/
def marshalFuel : Nat → Json → List Nat
  | 0, _ => []
  | _ + 1, .null => strBytes "null"
  | _ + 1, .bool true => strBytes "true"
  | _ + 1, .bool false => strBytes "false"
  | _ + 1, .num raw => raw
  | _ + 1, .str s => 34 :: s.flatMap escapeJsonByte ++ [34]
  | fuel + 1, .arr xs => 91 :: joinBytes 44 (xs.map (marshalFuel fuel)) ++ [93]
  | fuel + 1, .obj kvs =>
      123 :: joinBytes 44
        (kvs.map (fun kv => 34 :: kv.1.flatMap escapeJsonByte ++ 34 :: 58 :: marshalFuel fuel kv.2)) ++ [125]

mutual

/-- Structural size of a JSON value (dominates nesting depth, so it is
always enough fuel for `marshalFuel`). -/
def jsonSize : Json → Nat
  | .null => 1
  | .bool _ => 1
  | .num _ => 1
  | .str _ => 1
  | .arr xs => 1 + jsonSizeList xs
  | .obj kvs => 1 + jsonSizeKVs kvs

/-- Summed size of a list of JSON values. -/
def jsonSizeList : List Json → Nat
  | [] => 0
  | x :: xs => 1 + jsonSize x + jsonSizeList xs

/-- Summed size of object members. -/
def jsonSizeKVs : List (List Nat × Json) → Nat
  | [] => 0
  | (_, v) :: rest => 1 + jsonSize v + jsonSizeKVs rest

end

/-- Go `json.Marshal` of a JSON value. -/
def marshalJson (j : Json) : List Nat := marshalFuel (jsonSize j) j

/-! ### Selective-disclosure presentation decoding and transaction synthesis
(`HandleVPTxs`, `Txs` of `src/node/remote/node.go`; constants from
`src/types/dchain.go`; `ParseCombinedFormatForPresentation` from the
aries-framework-go sdjwt/common library). -/

/-- `VP_TYPE` of `src/types/dchain.go`. -/
def VP_TYPE : String := "/dchain.tx.v1.MsgVerifiablePresentation"

/-- ASCII whitespace trimmed by Go `strings.TrimSpace` (the non-ASCII
Unicode spaces Go also trims cannot occur in the byte-domain inputs here). -/
def isSpaceByte (c : Nat) : Bool := c == 32 || c == 9 || c == 10 || c == 11 || c == 12 || c == 13

/-- Go `strings.TrimSpace`. -/
def trimSpace (s : List Nat) : List Nat :=
  ((s.dropWhile isSpaceByte).reverse.dropWhile isSpaceByte).reverse

/-- Go `strings.Split(s, sep)` for a one-byte separator: always at least
one part. -/
def splitOnByte (sep : Nat) : List Nat → List (List Nat)
  | [] => [[]]
  | c :: rest =>
    let r := splitOnByte sep rest
    if c = sep then [] :: r
    else
      match r with
      | [] => [[c]]
      | h :: t => (c :: h) :: t

/-- aries-framework-go `common.CombinedFormatForPresentation`. -/
structure CombinedFormat where
  sdJwt : List Nat
  disclosures : List (List Nat)
  holderVerification : List Nat

/-- aries-framework-go `common.ParseCombinedFormatForPresentation`: split on
`~`; the middle parts are the disclosures, the last part (when any
separator is present) is the holder verification. -/
def ParseCombinedFormatForPresentation (s : List Nat) : CombinedFormat :=
  let parts := splitOnByte 126 s
  { sdJwt := parts.headD [],
    disclosures := if parts.length > 2 then (parts.drop 1).dropLast else [],
    holderVerification := if parts.length > 1 then (parts.getLast?).getD [] else [] }

/-- Go `json.Unmarshal(decoded, &disclosureArr)` with
`disclosureArr : []interface{}`: a JSON array yields its elements, JSON
`null` leaves the nil slice (no error!), any other well-formed value or a
syntax error yields an `error` return. -/
def jsonUnmarshalArr (bytes : List Nat) : Except GoErr (List Json) :=
  match jsonParse bytes with
  | none => .error (.fail "failed to unmarshal disclosure array")
  | some .null => .ok []
  | some (.arr xs) => .ok xs
  | some _ => .error (.fail "failed to unmarshal disclosure array")

/-- Body of the disclosure loop of `HandleVPTxs` for one disclosure token:
base64url-decode, JSON-decode, then execute
`disclosedJson[disclosureArr[1].(string)] = disclosureArr[2]` — which
panics when the array has fewer than 3 elements (out-of-range index) or
when element 1 is not a string (failed type assertion), and silently
ignores elements beyond index 2. -/
def decodeDisclosureStep (m : JsonMap) (disclosure : List Nat) : Except GoErr JsonMap :=
  match b64RawURLDecode disclosure with
  | none => .error (.fail "failed to decode disclosure")
  | some decoded =>
    match jsonUnmarshalArr decoded with
    | .error e => .error e
    | .ok arr =>
      match arr.get? 1 with
      | none => .error (.crash "runtime error: index out of range")
      | some (.str name) =>
        match arr.get? 2 with
        | none => .error (.crash "runtime error: index out of range")
        | some v => .ok (mapInsert name v m)
      | some _ => .error (.crash "interface conversion: interface is not string")

/-- The `for _, disclosure := range parsed.Disclosures` loop of
`HandleVPTxs`, threading the `disclosedJson` map. -/
def compileDisclosed : List (List Nat) → JsonMap → Except GoErr JsonMap
  | [], m => .ok m
  | d :: ds, m =>
    match decodeDisclosureStep m d with
    | .error e => .error e
    | .ok m' => compileDisclosed ds m'

/-- The pure (claim name, claim value) reading of one disclosure token:
`some` exactly when `decodeDisclosureStep` succeeds. -/
def decodeDisclosurePair (d : List Nat) : Option (List Nat × Json) :=
  match b64RawURLDecode d with
  | none => none
  | some decoded =>
    match jsonUnmarshalArr decoded with
    | .error _ => none
    | .ok arr =>
      match arr.get? 1 with
      | none => none
      | some (.str name) =>
        match arr.get? 2 with
        | none => none
        | some v => some (name, v)
      | some _ => none

/-- All disclosure tokens of a presentation as (name, value) pairs, `none`
if any token fails. -/
def decodeDisclosurePairs : List (List Nat) → Option (List (List Nat × Json))
  | [] => some []
  | d :: ds =>
    match decodeDisclosurePair d, decodeDisclosurePairs ds with
    | some p, some ps => some (p :: ps)
    | _, _ => none

/-- The disclosed claim set `HandleVPTxs` builds from a raw transaction:
trim, parse the combined format, fold the disclosures into `disclosedJson`,
then `disclosedJson["@type"] = types.VP_TYPE`. -/
def vpDisclosedClaimSet (txn : List Nat) : Except GoErr JsonMap :=
  match compileDisclosed (ParseCombinedFormatForPresentation (trimSpace txn)).disclosures [] with
  | .error e => .error e
  | .ok m => .ok (mapInsert (strBytes "@type") (.str (strBytes VP_TYPE)) m)

/-- 8-byte little-endian encoding (Go `binary.LittleEndian.PutUint64`). -/
def le64 (n : Nat) : List Nat :=
  [n % 256, n / 256 % 256, n / 65536 % 256, n / 16777216 % 256,
   n / 4294967296 % 256, n / 1099511627776 % 256,
   n / 281474976710656 % 256, n / 72057594037927936 % 256]

/-- Go `uint64(x)` of an `int64` value. -/
def u64ofInt (i : Int) : Nat := (i % 18446744073709551616).toNat

/-- cosmos-sdk `ValAddressFromHex`: non-empty hex string to address bytes. -/
def ValAddressFromHex (s : List Nat) : Except GoErr (List Nat) :=
  if s = [] then .error (.fail "decoding Bech32 address failed: must provide a non empty address")
  else
    match hexDecode s with
    | none => .error (.fail "encoding/hex: invalid byte")
    | some bz => .ok bz

/-- Block context consumed by `HandleVPTxs` / `Txs`: the header height, the
header's raw proposer address bytes, and the raw transactions. -/
structure BlockCtx where
  height : Int
  proposerAddress : List Nat
  txs : List (List Nat)

/-- The synthetic transaction record built by `HandleVPTxs` (the fields the
source populates with non-constant data; the bech32 text rendering of the
proposer attribute value is kept as the decoded address bytes). -/
structure SyntheticTx where
  memo : List Nat
  typeUrl : List Nat
  msgBytes : List Nat
  timeoutHeight : Nat
  txHash : String
  height : Int
  gasWanted : Nat
  gasUsed : Nat
  proposerAttr : List Nat

/-- `HandleVPTxs` of `src/node/remote/node.go`: decode the presentation's
disclosures into the claim set, serialize it, hash it salted with the
little-endian block height, derive the proposer address, and assemble the
synthetic transaction whose identifier is the uppercase-hex hash.
(`json.Marshal` of a map produced by `json.Unmarshal` cannot fail, so the
corresponding `err` branch is dead and not modelled.) -/
def HandleVPTxs (txn : List Nat) (block : BlockCtx) : Except GoErr SyntheticTx :=
  match vpDisclosedClaimSet txn with
  | .error e => .error e
  | .ok m =>
    let jsonBytes := marshalJson (.obj m)
    let salt := le64 (u64ofInt block.height)
    let finalBytes := jsonBytes ++ salt
    let hash := sha256 finalBytes
    match ValAddressFromHex (strBytes (hexUpper block.proposerAddress)) with
    | .error e => .error e
    | .ok valAddr =>
      .ok { memo := strBytes "Verifiable Presentation",
            typeUrl := strBytes VP_TYPE,
            msgBytes := jsonBytes,
            timeoutHeight := u64ofInt block.height,
            txHash := hexUpper hash,
            height := block.height,
            gasWanted := 0,
            gasUsed := 0,
            proposerAttr := valAddr }

/-- The loop of `Txs`: position 0 goes through `HandleVPTxs`, later
positions through the by-hash lookup `Tx(fmt.Sprintf("%X", tmTx.Hash()))`
(a CometBFT transaction hash is the SHA-256 of the raw bytes); the first
error aborts the whole call. The external lookup result type is abstract. -/
def txsLoop {τ : Type} (lookup : String → Except GoErr τ) (block : BlockCtx) :
    Nat → List (List Nat) → Except GoErr (List (SyntheticTx ⊕ τ))
  | _, [] => .ok []
  | i, tmTx :: rest =>
    if i = 0 then
      match HandleVPTxs tmTx block with
      | .error e => .error e
      | .ok t =>
        match txsLoop lookup block (i + 1) rest with
        | .error e => .error e
        | .ok ts => .ok (.inl t :: ts)
    else
      match lookup (hexUpper (sha256 tmTx)) with
      | .error e => .error e
      | .ok t =>
        match txsLoop lookup block (i + 1) rest with
        | .error e => .error e
        | .ok ts => .ok (.inr t :: ts)

/-- `Txs` of `src/node/remote/node.go`. -/
def Txs {τ : Type} (lookup : String → Except GoErr τ) (block : BlockCtx) :
    Except GoErr (List (SyntheticTx ⊕ τ)) :=
  txsLoop lookup block 0 block.txs

/-- Reading a Go map after an assignment: the assigned key yields the new
value, any other key is untouched. -/
theorem mapLookup_mapInsert (k k' : List Nat) (v : Json) (m : JsonMap) :
    mapLookup k (mapInsert k' v m) = if k = k' then some v else mapLookup k m := by
  induction m with
  | nil =>
    by_cases h : k = k' <;> simp [mapInsert, mapLookup, h]
  | cons hd tl ih =>
    obtain ⟨k1, v1⟩ := hd
    simp only [mapInsert]
    by_cases h1 : k' = k1
    · rw [if_pos h1]
      by_cases h : k = k'
      · simp [mapLookup, h]
      · simp [mapLookup, h, h1 ▸ h]
    · rw [if_neg h1]
      by_cases h2 : bytesLt k' k1
      · rw [if_pos h2]
        by_cases h : k = k' <;> simp [mapLookup, h]
      · rw [if_neg h2]
        by_cases h : k = k1
        · have hne : ¬ k = k' := fun hkk => h1 (hkk ▸ h)
          have h1' : ¬ k1 = k' := fun hh => h1 hh.symm
          simp [mapLookup, h, hne, h1']
        · simp [mapLookup, h, ih]

/-- Reading a Go map after folding a pair list in with assignments:
the last pair written for the key wins; keys never written read as in the
initial map. -/
theorem mapLookup_foldl_insert (k : List Nat) (pairs : List (List Nat × Json)) :
    ∀ m0 : JsonMap,
      mapLookup k (pairs.foldl (fun m p => mapInsert p.1 p.2 m) m0) =
        match (pairs.filter (fun p => decide (p.1 = k))).getLast? with
        | some q => some q.2
        | none => mapLookup k m0 := by
  induction pairs with
  | nil => intro m0; simp
  | cons p ps ih =>
    intro m0
    rw [List.foldl_cons, ih (mapInsert p.1 p.2 m0)]
    by_cases hp : p.1 = k
    · simp only [List.filter_cons, hp]
      cases hq : (ps.filter (fun p => decide (p.1 = k))).getLast? with
      | some q => simp [List.getLast?_cons, hq]
      | none =>
        have hnil : ps.filter (fun p => decide (p.1 = k)) = [] :=
          List.getLast?_eq_none_iff.mp hq
        simp [List.getLast?_cons, hq, hnil, mapLookup_mapInsert, hp]
    · simp only [List.filter_cons, hp]
      cases hq : (ps.filter (fun p => decide (p.1 = k))).getLast? with
      | some q => simp [hq]
      | none =>
        have hne : ¬ k = p.1 := fun h => hp h.symm
        simp [hq, mapLookup_mapInsert, hne]

/-- If a disclosure token reads as the pair `p`, the loop body assigns it
into the map. -/
theorem decodeDisclosureStep_ok (m : JsonMap) (d : List Nat) (p : List Nat × Json)
    (h : decodeDisclosurePair d = some p) :
    decodeDisclosureStep m d = .ok (mapInsert p.1 p.2 m) := by
  unfold decodeDisclosurePair at h
  unfold decodeDisclosureStep
  cases hb : b64RawURLDecode d with
  | none => rw [hb] at h; simp at h
  | some decoded =>
    rw [hb] at h
    dsimp only at h ⊢
    cases hj : jsonUnmarshalArr decoded with
    | error e => rw [hj] at h; simp at h
    | ok arr =>
      rw [hj] at h
      dsimp only at h ⊢
      cases h1 : arr.get? 1 with
      | none => rw [h1] at h; simp at h
      | some j1 =>
        rw [h1] at h
        cases j1 with
        | str name =>
          cases h2 : arr.get? 2 with
          | none => rw [h2] at h; simp at h
          | some v =>
            rw [h2] at h
            simp only [Option.some.injEq] at h
            subst h
            simp [h1, h2]
        | null => simp at h
        | bool b => simp at h
        | num raw => simp at h
        | arr xs => simp at h
        | obj kvs => simp at h

/-- When every disclosure token decodes, the disclosure loop equals the
left fold of map assignments over the decoded pairs. -/
theorem compileDisclosed_eq (tokens : List (List Nat)) :
    ∀ (pairs : List (List Nat × Json)) (m0 : JsonMap),
      decodeDisclosurePairs tokens = some pairs →
      compileDisclosed tokens m0 = .ok (pairs.foldl (fun m p => mapInsert p.1 p.2 m) m0) := by
  induction tokens with
  | nil =>
    intro pairs m0 h
    simp [decodeDisclosurePairs] at h
    subst h
    simp [compileDisclosed]
  | cons d ds ih =>
    intro pairs m0 h
    simp only [decodeDisclosurePairs] at h
    cases hd : decodeDisclosurePair d with
    | none => rw [hd] at h; simp at h
    | some p =>
      rw [hd] at h
      cases hds : decodeDisclosurePairs ds with
      | none => rw [hds] at h; simp at h
      | some ps =>
        rw [hds] at h
        simp at h
        subst h
        simp only [compileDisclosed, decodeDisclosureStep_ok m0 d p hd, List.foldl_cons]
        exact ih ps (mapInsert p.1 p.2 m0) hds

/-- C8: for every successfully decoded presentation the disclosed claim
set maps each claim name to its value with last-write-wins in disclosure
order, and additionally binds `"@type"` to the `VP_TYPE` constant
(overriding any disclosure of that name, since the `@type` assignment runs
last). -/
theorem claim_set_last_write_wins (txn : List Nat) (pairs : List (List Nat × Json)) (m : JsonMap)
    (hdec : decodeDisclosurePairs
      (ParseCombinedFormatForPresentation (trimSpace txn)).disclosures = some pairs)
    (hok : vpDisclosedClaimSet txn = .ok m) :
    mapLookup (strBytes "@type") m = some (.str (strBytes VP_TYPE)) ∧
    ∀ k, ¬ k = strBytes "@type" →
      mapLookup k m =
        ((pairs.filter (fun p => decide (p.1 = k))).getLast?).map Prod.snd := by
  unfold vpDisclosedClaimSet at hok
  rw [compileDisclosed_eq _ pairs [] hdec] at hok
  simp only [Except.ok.injEq] at hok
  subst hok
  constructor
  · rw [mapLookup_mapInsert]
    simp
  · intro k hk
    rw [mapLookup_mapInsert, if_neg hk, mapLookup_foldl_insert]
    cases (pairs.filter (fun p => decide (p.1 = k))).getLast? with
    | some q => simp
    | none => simp [mapLookup]

/-- The spec's one-disclosure scenario: a presentation whose single
disclosure token is base64url of `["salt1","name","Alice"]`. -/
def vpTxnOneDisc : List Nat := strBytes "jwt~WyJzYWx0MSIsIm5hbWUiLCJBbGljZSJd~"

/-- The claim set the scenario must produce. -/
def vpClaimSetOneDisc : JsonMap :=
  [(strBytes "@type", .str (strBytes VP_TYPE)), (strBytes "name", .str (strBytes "Alice"))]

/-- Witness for C8 at the one-disclosure scenario: the claim set is exactly
the two-entry map `name ↦ "Alice"`, `"@type" ↦ VP_TYPE`. -/
theorem claim_set_last_write_wins_witness :
    (decodeDisclosurePairs
        (ParseCombinedFormatForPresentation (trimSpace vpTxnOneDisc)).disclosures =
          some [(strBytes "name", Json.str (strBytes "Alice"))] ∧
      vpDisclosedClaimSet vpTxnOneDisc = .ok vpClaimSetOneDisc) ∧
    (mapLookup (strBytes "@type") vpClaimSetOneDisc = some (.str (strBytes VP_TYPE)) ∧
      ∀ k, ¬ k = strBytes "@type" →
        mapLookup k vpClaimSetOneDisc =
          (([(strBytes "name", Json.str (strBytes "Alice"))].filter
              (fun p => decide (p.1 = k))).getLast?).map Prod.snd) :=
  ⟨⟨rfl, rfl⟩,
   claim_set_last_write_wins vpTxnOneDisc
     [(strBytes "name", Json.str (strBytes "Alice"))] vpClaimSetOneDisc rfl rfl⟩

/-- C2: the loop body performs `disclosureArr[1].(string)` and
`disclosureArr[2]` without any length or type check, so a disclosure whose
JSON array does not have exactly 3 string-headed elements does not produce
the specified ParseError: a 1-element array panics with an out-of-range
index, a non-string second element panics with a failed type assertion,
and a 4-element array silently succeeds (extra elements ignored). -/
theorem malformed_disclosure_crashes :
    HandleVPTxs (strBytes "jwt~WyJhIl0~") ⟨5, [1, 2, 3], []⟩ =
      .error (.crash "runtime error: index out of range") ∧
    HandleVPTxs (strBytes "jwt~WyJzIiw1LCJ2Il0~") ⟨5, [1, 2, 3], []⟩ =
      .error (.crash "interface conversion: interface is not string") ∧
    vpDisclosedClaimSet (strBytes "jwt~WyJzIiwibiIsInYiLCJ4Il0~") =
      .ok [(strBytes "@type", .str (strBytes VP_TYPE)), (strBytes "n", .str (strBytes "v"))] :=
  ⟨rfl, rfl, rfl⟩

/-- C5: every successful `HandleVPTxs` call sets the transaction identifier
to the uppercase-hex SHA-256 of the serialized claim-set bytes (the bytes
carried in the synthetic message) concatenated with the 8-byte
little-endian block height. -/
theorem synthetic_tx_hash_spec (txn : List Nat) (block : BlockCtx) (t : SyntheticTx)
    (h : HandleVPTxs txn block = .ok t) :
    t.txHash = hexUpper (sha256 (t.msgBytes ++ le64 (u64ofInt block.height))) := by
  unfold HandleVPTxs at h
  cases hm : vpDisclosedClaimSet txn with
  | error e => rw [hm] at h; simp at h
  | ok m =>
    rw [hm] at h
    dsimp only at h
    cases ha : ValAddressFromHex (strBytes (hexUpper block.proposerAddress)) with
    | error e => rw [ha] at h; simp at h
    | ok valAddr =>
      rw [ha] at h
      simp only [Except.ok.injEq] at h
      subst h
      rfl

/-- Block context for the synthesis examples: height 5, proposer address
bytes `[1, 2, 3]`, no transactions needed. -/
def vpBlockEx : BlockCtx := ⟨5, [1, 2, 3], []⟩

/-- The synthetic transaction `HandleVPTxs` produces for the one-disclosure
presentation in `vpBlockEx` (extracted from the call itself). -/
def vpTxEx : SyntheticTx :=
  match HandleVPTxs vpTxnOneDisc vpBlockEx with
  | .ok t => t
  | .error _ => ⟨[], [], [], 0, "", 0, 0, 0, []⟩

/-- Witness for C5 at the one-disclosure presentation and height 5. -/
theorem synthetic_tx_hash_spec_witness :
    HandleVPTxs vpTxnOneDisc vpBlockEx = .ok vpTxEx ∧
    vpTxEx.txHash = hexUpper (sha256 (vpTxEx.msgBytes ++ le64 (u64ofInt vpBlockEx.height))) :=
  ⟨rfl, synthetic_tx_hash_spec vpTxnOneDisc vpBlockEx vpTxEx rfl⟩

/-- Block whose position-0 transaction is a presentation with an
undecodable disclosure (`!` is not base64url) and which has one sibling
transaction. -/
def badVpBlock : BlockCtx := ⟨5, [1, 2, 3], [strBytes "jwt~!~", strBytes "sibling-tx"]⟩

/-- C4 counterexample: synthesis of the position-0 presentation fails, and
`Txs` — with a by-hash lookup that would succeed for every sibling —
returns that error and no results at all, so the failure does prevent the
caller from receiving the sibling transactions. -/
theorem vp_failure_blocks_siblings_counterexample :
    HandleVPTxs (strBytes "jwt~!~") badVpBlock = .error (.fail "failed to decode disclosure") ∧
    Txs (τ := Nat) (fun _ => .ok 0) badVpBlock = .error (.fail "failed to decode disclosure") :=
  ⟨rfl, rfl⟩

/-- C4 (amended): a failure while synthesizing the position-0 presentation
aborts the entire `Txs` call — the caller receives only the error,
whatever the by-hash lookup would have returned for the siblings. -/
theorem vp_failure_aborts_whole_txs {τ : Type} (lookup : String → Except GoErr τ)
    (block : BlockCtx) (tx0 : List Nat) (rest : List (List Nat)) (e : GoErr)
    (htxs : block.txs = tx0 :: rest)
    (hfail : HandleVPTxs tx0 block = .error e) :
    Txs lookup block = .error e := by
  unfold Txs
  rw [htxs]
  simp [txsLoop, hfail]

/-- Witness for C4 (amended) at `badVpBlock` with an always-succeeding
lookup. -/
theorem vp_failure_aborts_whole_txs_witness :
    (badVpBlock.txs = strBytes "jwt~!~" :: [strBytes "sibling-tx"] ∧
      HandleVPTxs (strBytes "jwt~!~") badVpBlock = .error (.fail "failed to decode disclosure")) ∧
    Txs (τ := Nat) (fun _ => .ok 1) badVpBlock = .error (.fail "failed to decode disclosure") :=
  ⟨⟨rfl, rfl⟩,
   vp_failure_aborts_whole_txs (fun _ => .ok 1) badVpBlock (strBytes "jwt~!~")
     [strBytes "sibling-tx"] (.fail "failed to decode disclosure") rfl rfl⟩

/-- From position 1 on, every transaction goes through the by-hash lookup
with the uppercase-hex SHA-256 of its raw bytes, in order. -/
theorem txsLoop_tail {τ : Type} (lookup : String → Except GoErr τ) (block : BlockCtx) :
    ∀ (txs : List (List Nat)) (i : Nat) (res : List (SyntheticTx ⊕ τ)),
      1 ≤ i → txsLoop lookup block i txs = .ok res →
      res.length = txs.length ∧
      ∀ j, j < txs.length →
        ∃ t, lookup (hexUpper (sha256 (txs.getD j []))) = .ok t ∧
          res.get? j = some (.inr t) := by
  intro txs
  induction txs with
  | nil =>
    intro i res hi h
    simp [txsLoop] at h
    subst h
    simp
  | cons tx rest ih =>
    intro i res hi h
    simp only [txsLoop] at h
    rw [if_neg (by omega)] at h
    cases hl : lookup (hexUpper (sha256 tx)) with
    | error e => rw [hl] at h; simp at h
    | ok t =>
      rw [hl] at h
      dsimp only at h
      cases hr : txsLoop lookup block (i + 1) rest with
      | error e => rw [hr] at h; simp at h
      | ok ts =>
        rw [hr] at h
        simp only [Except.ok.injEq] at h
        subst h
        obtain ⟨hlen, hall⟩ := ih (i + 1) ts (by omega) hr
        constructor
        · simp [hlen]
        · intro j hj
          cases j with
          | zero => exact ⟨t, hl, rfl⟩
          | succ j' =>
            simp only [List.length_cons] at hj
            obtain ⟨t', h1, h2⟩ := hall j' (by omega)
            exact ⟨t', h1, by simpa using h2⟩

/-- C9: on a successful `Txs` call the result has one entry per raw
transaction, position 0 is the `HandleVPTxs` synthesis of the block's
first transaction, and every later position is the by-hash lookup of the
corresponding transaction — order preserved position by position. -/
theorem txs_routing {τ : Type} (lookup : String → Except GoErr τ) (block : BlockCtx)
    (res : List (SyntheticTx ⊕ τ)) (h : Txs lookup block = .ok res) :
    res.length = block.txs.length ∧
    ∀ j, j < block.txs.length →
      (j = 0 → ∃ t, HandleVPTxs (block.txs.getD 0 []) block = .ok t ∧
        res.get? 0 = some (.inl t)) ∧
      (1 ≤ j → ∃ t, lookup (hexUpper (sha256 (block.txs.getD j []))) = .ok t ∧
        res.get? j = some (.inr t)) := by
  unfold Txs at h
  cases htxs : block.txs with
  | nil =>
    rw [htxs] at h
    simp [txsLoop] at h
    subst h
    simp
  | cons tx0 rest =>
    rw [htxs] at h
    simp only [txsLoop, if_true, eq_self_iff_true] at h
    cases h0 : HandleVPTxs tx0 block with
    | error e => rw [h0] at h; simp at h
    | ok t0 =>
      rw [h0] at h
      dsimp only at h
      cases hr : txsLoop lookup block 1 rest with
      | error e => rw [hr] at h; simp at h
      | ok ts =>
        rw [hr] at h
        simp only [Except.ok.injEq] at h
        subst h
        obtain ⟨hlen, hall⟩ := txsLoop_tail lookup block rest 1 ts (by omega) hr
        constructor
        · simp [hlen]
        · intro j hj
          constructor
          · intro hj0
            exact ⟨t0, h0, rfl⟩
          · intro hj1
            cases j with
            | zero => omega
            | succ j' =>
              simp only [List.length_cons] at hj
              obtain ⟨t', h1, h2⟩ := hall j' (by omega)
              exact ⟨t', h1, by simpa using h2⟩

/-- Two-transaction block for the routing example. -/
def vpTxsBlockEx : BlockCtx := ⟨5, [1, 2, 3], [strBytes "jwt~", strBytes "x"]⟩

/-- The result `Txs` produces on `vpTxsBlockEx` with a lookup returning the
queried hash itself (extracted from the call). -/
def vpTxsResEx : List (SyntheticTx ⊕ String) :=
  match Txs (τ := String) (fun s => .ok s) vpTxsBlockEx with
  | .ok r => r
  | .error _ => []

/-- Witness for C9 on a two-transaction block. -/
theorem txs_routing_witness :
    Txs (τ := String) (fun s => .ok s) vpTxsBlockEx = .ok vpTxsResEx ∧
    (vpTxsResEx.length = vpTxsBlockEx.txs.length ∧
      ∀ j, j < vpTxsBlockEx.txs.length →
        (j = 0 → ∃ t, HandleVPTxs (vpTxsBlockEx.txs.getD 0 []) vpTxsBlockEx = .ok t ∧
          vpTxsResEx.get? 0 = some (.inl t)) ∧
        (1 ≤ j → ∃ t, (fun s => (.ok s : Except GoErr String))
            (hexUpper (sha256 (vpTxsBlockEx.txs.getD j []))) = .ok t ∧
          vpTxsResEx.get? j = some (.inr t))) :=
  ⟨rfl, txs_routing (fun s => .ok s) vpTxsBlockEx vpTxsResEx rfl⟩

/-- C10: `Txs` on a block with an empty transaction list returns the empty
sequence with no error, for every possible lookup (so neither the
presentation path nor the by-hash path is ever consulted). -/
theorem txs_empty_block {τ : Type} (lookup : String → Except GoErr τ)
    (h : Int) (addr : List Nat) :
    Txs lookup ⟨h, addr, []⟩ = .ok [] := rfl
